import Mathlib

/-!
Verification development for `column_alias_manager.py` from the
`alias-manager` repository.

The Python class `ColumnAliasManager` keeps a dictionary from
case-folded alias strings to canonical column names, supports
add/remove/freeze mutation, case-insensitive lookup, batch resolution,
two DataFrame-level rename operations, and JSON persistence.

Embedding choices:
* A Python `str` is a `List Char` (`Str`).
* Python's `str.casefold` (full Unicode case folding) is modelled on a
  representative character set: ASCII letters plus U+00DF (ß, which
  full case folding expands to "ss" while simple lowercasing leaves it
  alone); every other character folds to itself.
* A Python `dict` is an association list with insertion-order update
  semantics (`dictGet` / `dictInsert` / `dictPop`): updating an
  existing key keeps its position, a new key is appended.
* Exceptions become `Except Err` for single operations; the batch
  mutators, which in Python leave earlier successfully-added entries in
  place when a later one raises, return the partially-updated state
  together with an optional error.
* A pandas DataFrame is its column-label list plus its `attrs`
  metadata bag (the only parts the source touches); `DataFrame.rename`
  replaces every column label present as a key of the rename map by
  its value and `df.copy()` copies columns and attrs, so in this pure
  embedding the `inplace` flag does not change the returned value.
* `json.dumps` / `json.loads` on a flat string-to-string object are
  mutually inverse, so the JSON text is modelled by the association
  list itself.
-/

/-- A Python string: a list of characters. -/
abbrev Str := List Char

/-- The full-case-folding table restricted to the modelled set:
ASCII uppercase letters fold to their lowercase counterparts. -/
def upperTable : List (Char × Char) :=
  [('A', 'a'), ('B', 'b'), ('C', 'c'), ('D', 'd'), ('E', 'e'), ('F', 'f'),
   ('G', 'g'), ('H', 'h'), ('I', 'i'), ('J', 'j'), ('K', 'k'), ('L', 'l'),
   ('M', 'm'), ('N', 'n'), ('O', 'o'), ('P', 'p'), ('Q', 'q'), ('R', 'r'),
   ('S', 's'), ('T', 't'), ('U', 'u'), ('V', 'v'), ('W', 'w'), ('X', 'x'),
   ('Y', 'y'), ('Z', 'z')]

/-- Association-list lookup with Python-`dict` semantics
(`d.get(k)` / `k in d`). -/
def dictGet {κ α : Type} [DecidableEq κ] (d : List (κ × α)) (k : κ) : Option α :=
  match d with
  | [] => none
  | (k', v) :: rest => if k' = k then some v else dictGet rest k

/-- `d[k] = v` on a Python dict: update in place when the key exists,
append otherwise (insertion order preserved). -/
def dictInsert {κ α : Type} [DecidableEq κ] (d : List (κ × α)) (k : κ) (v : α) :
    List (κ × α) :=
  match d with
  | [] => [(k, v)]
  | (k', v') :: rest =>
      if k' = k then (k, v) :: rest else (k', v') :: dictInsert rest k v

/-- `d.pop(k, None)` on a Python dict: drop the binding when present. -/
def dictPop {κ α : Type} [DecidableEq κ] (d : List (κ × α)) (k : κ) :
    List (κ × α) :=
  match d with
  | [] => []
  | (k', v') :: rest => if k' = k then rest else (k', v') :: dictPop rest k

/-- Model of Python `str.casefold` on a single character: full Unicode
case folding restricted to ASCII letters and ß (which folds to "ss");
all other characters fold to themselves. -/
def caseFoldChar (c : Char) : List Char :=
  if c = 'ß' then ['s', 's']
  else
    match dictGet upperTable c with
    | some l => [l]
    | none => [c]

/-- Model of Python `str.casefold` on a string. -/
def caseFold (s : Str) : Str := s.flatMap caseFoldChar

/-- Mapped lowercasing of a string (Python `str.lower` on the modelled
character set); used only to contrast simple lowercasing with full
case folding. -/
def asciiLower (s : Str) : Str :=
  s.map fun c => (dictGet upperTable c).getD c

/-- The error taxonomy of the source (`RuntimeError` for frozen
mutation, `ValueError` for alias conflicts, column collisions and a
missing rename record). -/
inductive Err where
  | frozenError
  | conflictError
  | collisionError
  | missingRecordError
deriving DecidableEq

/-- The `ColumnAliasManager` state: the `_aliases` dict
(normalized-alias → canonical) and the `_frozen` flag. -/
structure ColumnAliasManager where
  aliases : List (Str × Str)
  frozen : Bool
deriving DecidableEq

namespace ColumnAliasManager

/-- `_normalize`: case-fold for reliable matching under all Unicode
casings (`name.casefold()`). -/
def _normalize (name : Str) : Str := caseFold name

/-- `_check_frozen`: raise `RuntimeError` when the manager is frozen. -/
def _check_frozen (m : ColumnAliasManager) : Except Err Unit :=
  if m.frozen then Except.error Err.frozenError else Except.ok ()

/-- `add_alias(alias, canonical, overwrite=False)`. -/
def add_alias (m : ColumnAliasManager) (aliasStr canonicalStr : Str)
    (overwrite : Bool := false) : Except Err ColumnAliasManager :=
  match m._check_frozen with
  | Except.error e => Except.error e
  | Except.ok _ =>
    if overwrite = false ∧ (dictGet m.aliases (_normalize aliasStr)).isSome = true ∧
        dictGet m.aliases (_normalize aliasStr) ≠ some canonicalStr then
      Except.error Err.conflictError
    else
      Except.ok
        { m with aliases := dictInsert m.aliases (_normalize aliasStr) canonicalStr }

/-- The loop body shared by `add_aliases` and `add_alias_groups`: apply
`add_alias` to each pair in order; the first failure aborts further
processing but keeps the entries already added (no rollback). -/
def addAliasLoop (m : ColumnAliasManager) (pairs : List (Str × Str))
    (overwrite : Bool) : ColumnAliasManager × Option Err :=
  match pairs with
  | [] => (m, none)
  | (a, c) :: rest =>
    match m.add_alias a c overwrite with
    | Except.error e => (m, some e)
    | Except.ok m' => addAliasLoop m' rest overwrite

/-- `add_aliases(mapping, overwrite=False)`: `add_alias` per item. -/
def add_aliases (m : ColumnAliasManager) (mapping : List (Str × Str))
    (overwrite : Bool := false) : ColumnAliasManager × Option Err :=
  addAliasLoop m mapping overwrite

/-- The `(alias, canonical)` pairs visited by the nested loops of
`add_alias_groups`. -/
def groupPairs (groups : List (Str × List Str)) : List (Str × Str) :=
  (groups.map fun g => g.2.map fun a => (a, g.1)).flatten

/-- `add_alias_groups(groups, overwrite=False)`: for each canonical,
add every alias of its group. -/
def add_alias_groups (m : ColumnAliasManager) (groups : List (Str × List Str))
    (overwrite : Bool := false) : ColumnAliasManager × Option Err :=
  addAliasLoop m (groupPairs groups) overwrite

/-- `remove_alias(alias)`: pop the normalized key, no-op if absent. -/
def remove_alias (m : ColumnAliasManager) (aliasStr : Str) :
    Except Err ColumnAliasManager :=
  match m._check_frozen with
  | Except.error e => Except.error e
  | Except.ok _ =>
      Except.ok { m with aliases := dictPop m.aliases (_normalize aliasStr) }

/-- `clear()`: drop all entries. -/
def clear (m : ColumnAliasManager) : Except Err ColumnAliasManager :=
  match m._check_frozen with
  | Except.error e => Except.error e
  | Except.ok _ => Except.ok { m with aliases := [] }

/-- `freeze()`: set the frozen flag; total, never raises. -/
def freeze (m : ColumnAliasManager) : ColumnAliasManager :=
  { m with frozen := true }

/-- `__init__(mapping=None, *, frozen=False)`: the frozen flag is set
first, then a truthy (non-empty) mapping is added via `add_aliases`. -/
def init (mapping : Option (List (Str × Str)) := none)
    (frozen : Bool := false) : ColumnAliasManager × Option Err :=
  match mapping with
  | none => ({ aliases := [], frozen := frozen }, none)
  | some mp =>
      if mp = [] then ({ aliases := [], frozen := frozen }, none)
      else add_aliases { aliases := [], frozen := frozen } mp

/-- `canonical(alias_or_name)`: look up the normalized input, falling
back to the input itself. -/
def canonical (m : ColumnAliasManager) (alias_or_name : Str) : Str :=
  (dictGet m.aliases (_normalize alias_or_name)).getD alias_or_name

/-- `__contains__`. -/
def contains (m : ColumnAliasManager) (aliasStr : Str) : Bool :=
  (dictGet m.aliases (_normalize aliasStr)).isSome

/-- `aliases_for(canonical)`. -/
def aliases_for (m : ColumnAliasManager) (canonicalStr : Str) : List Str :=
  (m.aliases.filter fun p => p.2 = canonicalStr).map Prod.fst

/-- `to_json()`: the JSON encoding of `_aliases`, modelled by the
association list itself (see the header comment). -/
def to_json (m : ColumnAliasManager) : List (Str × Str) := m.aliases

/-- `from_json(s)`: `cls(json.loads(s))`. -/
def from_json (d : List (Str × Str)) : ColumnAliasManager × Option Err :=
  init (some d) false

end ColumnAliasManager

/-- A column label handed to `resolve`: either a string or an opaque
non-string hashable (integers, MultiIndex tuples, ...), the latter
modelled by a numeric tag. -/
inductive Label where
  | str (s : Str)
  | other (n : Nat)
deriving DecidableEq

/-- The slice of a pandas DataFrame the source touches: its column
labels and its `attrs` metadata bag (here a dict from string keys to
rename-record values, the only value type the source stores). -/
structure DataFrame where
  columns : List Str
  attrs : List (Str × List (Str × Str))
deriving DecidableEq

/-- Modelled from pandas `DataFrame.rename(columns=renameMap)`: every
column label present as a key of the map is replaced by its value. -/
def renameColumns (df : DataFrame) (renameMap : List (Str × Str)) : DataFrame :=
  { df with columns := df.columns.map fun c => (dictGet renameMap c).getD c }

/-- `df.attrs[k] = v`. -/
def attrsSet (df : DataFrame) (k : Str) (v : List (Str × Str)) : DataFrame :=
  { df with attrs := dictInsert df.attrs k v }

namespace ColumnAliasManager

/-- `_ATTR_KEY = "alias_map"`. -/
def _ATTR_KEY : Str := "alias_map".toList

/-- `resolve(columns)`: canonicalize string labels, pass non-string
labels through; `None` propagates to `None`. -/
def resolve (m : ColumnAliasManager) (columns : Option (List Label)) :
    Option (List Label) :=
  match columns with
  | none => none
  | some cols =>
      some (cols.map fun col =>
        match col with
        | Label.str s => Label.str (m.canonical s)
        | Label.other n => Label.other n)

/-- The candidate rename map built by `to_canonical`: a dict
comprehension over `df.columns` keeping the columns whose normalized
form is a registered alias. -/
def rename_map_of (m : ColumnAliasManager) (df : DataFrame) :
    List (Str × Str) :=
  df.columns.foldl
    (fun acc col =>
      match dictGet m.aliases (_normalize col) with
      | some canon => dictInsert acc col canon
      | none => acc)
    []

/-- The collision list of `to_canonical`: aliases of the candidate map
whose canonical, case-insensitively, is already among the table's
column labels, excluding the exactly-equal no-op rename. -/
def collisions_of (m : ColumnAliasManager) (df : DataFrame) : List Str :=
  ((rename_map_of m df).filter fun p =>
      decide (_normalize p.2 ∈ df.columns.map _normalize ∧ p.1 ≠ p.2)).map
    Prod.fst

/-- The rename map `to_canonical` actually applies: the candidate map
with the colliding aliases popped when `drop_conflicts` prunes them
(popping nothing when there is no collision). -/
def applied_rename_map (m : ColumnAliasManager) (df : DataFrame) :
    List (Str × Str) :=
  (collisions_of m df).foldl dictPop (rename_map_of m df)

/-- `to_canonical(df, *, inplace=False, drop_conflicts=False,
remember=True)`: build the candidate rename map, fail on collisions
unless they are dropped, rename, optionally store the applied map
under `_ATTR_KEY`.  In this pure embedding the copied and the in-place
target are the same value, so `inplace` does not affect the result. -/
def to_canonical (m : ColumnAliasManager) (df : DataFrame)
    (_inplace : Bool := false) (drop_conflicts : Bool := false)
    (remember : Bool := true) : Except Err DataFrame :=
  if collisions_of m df ≠ [] ∧ drop_conflicts = false then
    Except.error Err.collisionError
  else
    Except.ok
      (if remember then
        attrsSet (renameColumns df (applied_rename_map m df)) _ATTR_KEY
          (applied_rename_map m df)
      else renameColumns df (applied_rename_map m df))

/-- `restore_aliases(df, *, inplace=False, strict=True)`: read the
rename record stored under `_ATTR_KEY`, invert it (last inverse wins
on duplicate canonicals, as in the Python dict comprehension) and
rename back; a missing record raises when `strict` else is a no-op. -/
def restore_aliases (_m : ColumnAliasManager) (df : DataFrame)
    (_inplace : Bool := false) (strict : Bool := true) : Except Err DataFrame :=
  match dictGet df.attrs _ATTR_KEY with
  | none =>
      if strict then Except.error Err.missingRecordError else Except.ok df
  | some alias_map =>
      let reverse := alias_map.foldl (fun acc p => dictInsert acc p.2 p.1) []
      Except.ok (renameColumns df reverse)

/-- The data-model invariant: every key of the alias dict is a fixed
point of case folding (hence the case-folded form of some alias), and
keys are unique. -/
def Wf (m : ColumnAliasManager) : Prop :=
  (∀ p ∈ m.aliases, caseFold p.1 = p.1) ∧ (m.aliases.map Prod.fst).Nodup

end ColumnAliasManager

section DictLemmas

variable {κ α : Type} [DecidableEq κ]

theorem dictGet_dictInsert_self (d : List (κ × α)) (k : κ) (v : α) :
    dictGet (dictInsert d k v) k = some v := by
  induction d with
  | nil => simp [dictInsert, dictGet]
  | cons p rest ih =>
      by_cases h : p.1 = k
      · simp [dictInsert, dictGet, h]
      · simp [dictInsert, dictGet, h, ih]

theorem mem_dictInsert {d : List (κ × α)} {k : κ} {v : α} {p : κ × α}
    (hp : p ∈ dictInsert d k v) : p = (k, v) ∨ p ∈ d := by
  induction d with
  | nil =>
      simp only [dictInsert, List.mem_singleton] at hp
      exact Or.inl hp
  | cons q rest ih =>
      by_cases h : q.1 = k
      · rcases (by simpa [dictInsert, h] using hp) with h' | h'
        · exact Or.inl h'
        · exact Or.inr (List.mem_cons_of_mem _ h')
      · rcases (by simpa [dictInsert, h] using hp) with h' | h'
        · exact Or.inr (by simp [h'])
        · rcases ih h' with h'' | h''
          · exact Or.inl h''
          · exact Or.inr (List.mem_cons_of_mem _ h'')

theorem keys_dictInsert (d : List (κ × α)) (k : κ) (v : α) :
    (dictInsert d k v).map Prod.fst =
      if k ∈ d.map Prod.fst then d.map Prod.fst else d.map Prod.fst ++ [k] := by
  induction d with
  | nil => simp [dictInsert]
  | cons q rest ih =>
      by_cases h : q.1 = k
      · simp [dictInsert, h]
      · have hk : ¬ k = q.1 := fun hk => h hk.symm
        simp only [dictInsert, if_neg h, List.map_cons, List.mem_cons, ih]
        by_cases hm : k ∈ rest.map Prod.fst
        · simp [hm, hk]
        · simp [hm, hk]

theorem nodup_keys_dictInsert {d : List (κ × α)} (k : κ) (v : α)
    (hd : (d.map Prod.fst).Nodup) :
    ((dictInsert d k v).map Prod.fst).Nodup := by
  rw [keys_dictInsert]
  by_cases hm : k ∈ d.map Prod.fst
  · simpa [hm] using hd
  · simpa [hm, List.nodup_append] using hd

theorem dictPop_sublist (d : List (κ × α)) (k : κ) :
    (dictPop d k).Sublist d := by
  induction d with
  | nil => simp [dictPop]
  | cons q rest ih =>
      by_cases h : q.1 = k
      · simp [dictPop, h]
      · simpa [dictPop, h] using List.Sublist.cons₂ q ih

theorem dictGet_eq_none_iff (d : List (κ × α)) (k : κ) :
    dictGet d k = none ↔ k ∉ d.map Prod.fst := by
  induction d with
  | nil => simp [dictGet]
  | cons q rest ih =>
      by_cases h : q.1 = k
      · simp [dictGet, h]
      · simp only [dictGet, if_neg h, ih, List.map_cons, List.mem_cons]
        constructor
        · intro hnot hmem
          rcases hmem with hmem | hmem
          · exact h hmem.symm
          · exact hnot hmem
        · intro hnot hmem
          exact hnot (Or.inr hmem)

theorem dictInsert_of_get_none {d : List (κ × α)} {k : κ} (v : α)
    (h : dictGet d k = none) : dictInsert d k v = d ++ [(k, v)] := by
  induction d with
  | nil => simp [dictInsert]
  | cons q rest ih =>
      by_cases hq : q.1 = k
      · simp [dictGet, hq] at h
      · simp only [dictGet, if_neg hq] at h
        simp [dictInsert, hq, ih h]

theorem dictGet_mem_values {d : List (κ × α)} {k : κ} {v : α}
    (h : dictGet d k = some v) : v ∈ d.map Prod.snd := by
  induction d with
  | nil => simp [dictGet] at h
  | cons q rest ih =>
      by_cases hq : q.1 = k
      · simp only [dictGet, if_pos hq, Option.some.injEq] at h
        rw [List.map_cons]
        exact List.mem_cons.mpr (Or.inl h.symm)
      · simp only [dictGet, if_neg hq] at h
        rw [List.map_cons]
        exact List.mem_cons_of_mem _ (ih h)

end DictLemmas

theorem lower_caseFoldChar_fixed :
    ∀ l ∈ upperTable.map Prod.snd, caseFoldChar l = [l] := by decide

theorem caseFold_caseFoldChar (c : Char) :
    caseFold (caseFoldChar c) = caseFoldChar c := by
  unfold caseFoldChar
  by_cases hb : c = 'ß'
  · simp only [if_pos hb]
    decide
  · simp only [if_neg hb]
    cases hget : dictGet upperTable c with
    | some l =>
        have hl := lower_caseFoldChar_fixed l (dictGet_mem_values hget)
        simp [caseFold, hl]
    | none =>
        simp [caseFold, caseFoldChar, hb, hget]

theorem caseFold_append (s t : Str) :
    caseFold (s ++ t) = caseFold s ++ caseFold t := by
  simp [caseFold]

theorem caseFold_idem (s : Str) : caseFold (caseFold s) = caseFold s := by
  induction s with
  | nil => rfl
  | cons c rest ih =>
      have : caseFold (c :: rest) = caseFoldChar c ++ caseFold rest := by
        simp [caseFold]
      rw [this, caseFold_append, ih, caseFold_caseFoldChar]

namespace ColumnAliasManager

theorem add_alias_ok {m m' : ColumnAliasManager} {a c : Str} {ow : Bool}
    (h : m.add_alias a c ow = Except.ok m') :
    m.frozen = false ∧
      m' = { m with aliases := dictInsert m.aliases (_normalize a) c } := by
  unfold add_alias _check_frozen at h
  cases hf : m.frozen with
  | true => rw [hf] at h; simp at h
  | false =>
      rw [hf] at h
      simp only [Bool.false_eq_true, if_false] at h
      split at h
      · simp at h
      · simp only [Except.ok.injEq] at h
        exact ⟨rfl, h.symm⟩

theorem add_alias_frozen {m : ColumnAliasManager} {a c : Str} {ow : Bool}
    (hf : m.frozen = true) :
    m.add_alias a c ow = Except.error Err.frozenError := by
  unfold add_alias _check_frozen
  rw [hf]
  simp

theorem add_alias_conflict_iff (m : ColumnAliasManager) (a c : Str)
    (hf : m.frozen = false) :
    m.add_alias a c false = Except.error Err.conflictError ↔
      (dictGet m.aliases (_normalize a)).isSome = true ∧
        dictGet m.aliases (_normalize a) ≠ some c := by
  unfold add_alias _check_frozen
  rw [hf]
  simp only [Bool.false_eq_true, if_false]
  split
  case isTrue hcond =>
      simp only [true_iff]
      exact ⟨hcond.2.1, hcond.2.2⟩
  case isFalse hcond =>
      simp only [reduceCtorEq, false_iff]
      intro hc
      exact hcond ⟨by trivial, hc.1, hc.2⟩

theorem wf_add_alias {m m' : ColumnAliasManager} {a c : Str} {ow : Bool}
    (hw : Wf m) (h : m.add_alias a c ow = Except.ok m') :
    Wf m' ∧ dictGet m'.aliases (_normalize a) = some c := by
  obtain ⟨_, hm'⟩ := add_alias_ok h
  subst hm'
  refine ⟨⟨?_, ?_⟩, ?_⟩
  · intro p hp
    rcases mem_dictInsert hp with rfl | hp
    · simpa [_normalize] using caseFold_idem a
    · exact hw.1 p hp
  · exact nodup_keys_dictInsert _ _ hw.2
  · exact dictGet_dictInsert_self _ _ _

theorem wf_addAliasLoop {m : ColumnAliasManager} (hw : Wf m)
    (pairs : List (Str × Str)) (ow : Bool) :
    Wf (addAliasLoop m pairs ow).1 := by
  induction pairs generalizing m with
  | nil => simpa [addAliasLoop] using hw
  | cons p rest ih =>
      obtain ⟨a, c⟩ := p
      unfold addAliasLoop
      cases h : m.add_alias a c ow with
      | error e => simpa using hw
      | ok m' => simpa using ih (wf_add_alias hw h).1

theorem remove_alias_ok {m m' : ColumnAliasManager} {a : Str}
    (h : m.remove_alias a = Except.ok m') :
    m.frozen = false ∧
      m' = { m with aliases := dictPop m.aliases (_normalize a) } := by
  unfold remove_alias _check_frozen at h
  cases hf : m.frozen with
  | true => rw [hf] at h; simp at h
  | false =>
      rw [hf] at h
      simp only [Bool.false_eq_true, if_false, Except.ok.injEq] at h
      exact ⟨rfl, h.symm⟩

theorem wf_remove_alias {m m' : ColumnAliasManager} {a : Str}
    (hw : Wf m) (h : m.remove_alias a = Except.ok m') : Wf m' := by
  obtain ⟨_, hm'⟩ := remove_alias_ok h
  subst hm'
  constructor
  · intro p hp
    exact hw.1 p ((dictPop_sublist m.aliases (_normalize a)).subset hp)
  · exact hw.2.sublist ((dictPop_sublist m.aliases (_normalize a)).map Prod.fst)

theorem wf_clear {m m' : ColumnAliasManager}
    (h : m.clear = Except.ok m') : Wf m' := by
  unfold clear _check_frozen at h
  cases hf : m.frozen with
  | true => rw [hf] at h; simp at h
  | false =>
      rw [hf] at h
      simp only [Bool.false_eq_true, if_false, Except.ok.injEq] at h
      subst h
      exact ⟨by simp, by simp⟩

theorem wf_empty (fz : Bool) : Wf { aliases := [], frozen := fz } :=
  ⟨by simp, by simp⟩

theorem wf_init (mapping : Option (List (Str × Str))) (fz : Bool) :
    Wf (init mapping fz).1 := by
  unfold init
  cases mapping with
  | none => exact wf_empty fz
  | some mp =>
      by_cases hmp : mp = []
      · simpa [hmp] using wf_empty fz
      · simpa [hmp, add_aliases] using wf_addAliasLoop (wf_empty fz) mp false

theorem wf_from_json (d : List (Str × Str)) : Wf (from_json d).1 :=
  wf_init (some d) false

end ColumnAliasManager

namespace ColumnAliasManager

theorem addAliasLoop_frozen {m : ColumnAliasManager} (hf : m.frozen = true)
    {pairs : List (Str × Str)} (hp : pairs ≠ []) (ow : Bool) :
    addAliasLoop m pairs ow = (m, some Err.frozenError) := by
  cases pairs with
  | nil => exact absurd rfl hp
  | cons p rest =>
      obtain ⟨a, c⟩ := p
      unfold addAliasLoop
      rw [add_alias_frozen hf]

theorem remove_alias_frozen {m : ColumnAliasManager} (hf : m.frozen = true)
    (a : Str) : m.remove_alias a = Except.error Err.frozenError := by
  unfold remove_alias _check_frozen
  rw [hf]
  simp

theorem clear_frozen {m : ColumnAliasManager} (hf : m.frozen = true) :
    m.clear = Except.error Err.frozenError := by
  unfold clear _check_frozen
  rw [hf]
  simp

theorem addAliasLoop_disjoint :
    ∀ (l : List (Str × Str)) (m : ColumnAliasManager), m.frozen = false →
      (∀ p ∈ l, caseFold p.1 = p.1) →
      (m.aliases.map Prod.fst ++ l.map Prod.fst).Nodup →
      addAliasLoop m l false = ({ m with aliases := m.aliases ++ l }, none) := by
  intro l
  induction l with
  | nil =>
      intro m _ _ _
      simp [addAliasLoop]
  | cons p rest ih =>
      intro m hf hfold hnodup
      obtain ⟨k, v⟩ := p
      have hk : caseFold k = k := hfold (k, v) (List.mem_cons_self _ _)
      have hknot : k ∉ m.aliases.map Prod.fst := by
        intro hkA
        exact (List.nodup_append.mp hnodup).2.2 hkA (List.mem_cons_self _ _)
      have hget : dictGet m.aliases k = none := by
        rw [dictGet_eq_none_iff]
        exact hknot
      have hadd : m.add_alias k v false =
          Except.ok { m with aliases := m.aliases ++ [(k, v)] } := by
        unfold add_alias _check_frozen
        rw [hf]
        simp [_normalize, hk, hget, dictInsert_of_get_none v hget]
      unfold addAliasLoop
      rw [hadd]
      have hrec := ih { m with aliases := m.aliases ++ [(k, v)] } hf
        (fun q hq => hfold q (List.mem_cons_of_mem _ hq))
        (by simpa [List.append_assoc] using hnodup)
      simp [hrec]

end ColumnAliasManager

namespace ColumnAliasManager

theorem collisions_of_ne_nil_iff (m : ColumnAliasManager) (df : DataFrame) :
    collisions_of m df ≠ [] ↔
      ∃ p ∈ rename_map_of m df,
        _normalize p.2 ∈ df.columns.map _normalize ∧ p.1 ≠ p.2 := by
  unfold collisions_of
  rw [ne_eq, List.map_eq_nil_iff, List.filter_eq_nil_iff]
  push_neg
  simp only [decide_eq_true_eq]

theorem to_canonical_collision_iff (m : ColumnAliasManager) (df : DataFrame)
    (ip rem : Bool) :
    m.to_canonical df ip false rem = Except.error Err.collisionError ↔
      collisions_of m df ≠ [] := by
  unfold to_canonical
  split
  case isTrue h =>
      simp only [true_iff]
      exact h.1
  case isFalse h =>
      constructor
      · intro hc
        exact Except.noConfusion hc
      · intro hne
        exact absurd ⟨hne, rfl⟩ h

theorem to_canonical_ok {m : ColumnAliasManager} {df : DataFrame}
    {ip dc rem : Bool} {t : DataFrame}
    (h : m.to_canonical df ip dc rem = Except.ok t) :
    t = (if rem then
          attrsSet (renameColumns df (applied_rename_map m df)) _ATTR_KEY
            (applied_rename_map m df)
        else renameColumns df (applied_rename_map m df)) := by
  unfold to_canonical at h
  split at h
  · exact Except.noConfusion h
  · simp only [Except.ok.injEq] at h
    exact h.symm

end ColumnAliasManager

open ColumnAliasManager

/-- C1: for every alias `a` and canonical `c`, after `add_alias(a, c)`
succeeds, `canonical` returns `c` on every string `a'` whose full
case folding equals that of `a` (including `a` itself): lookup is
keyed by the full case folding of the input, not by simple
lowercasing. -/
theorem c1_casefold_invariant_lookup {m m' : ColumnAliasManager}
    {a c b : Str} {ow : Bool} (h : m.add_alias a c ow = Except.ok m')
    (hfold : caseFold b = caseFold a) : m'.canonical b = c := by
  obtain ⟨-, rfl⟩ := add_alias_ok h
  unfold canonical _normalize
  rw [hfold]
  show (dictGet (dictInsert m.aliases (caseFold a) c) (caseFold a)).getD b = c
  rw [dictGet_dictInsert_self]
  rfl

/-- Witness for C1, on the non-ASCII case that distinguishes full case
folding from simple lowercasing: registering the alias "straße" makes
lookup of "STRASSE" succeed, since both case-fold to "strasse"
(whereas "straße" does not lowercase to "strasse"). -/
theorem c1_casefold_invariant_lookup_witness :
    ColumnAliasManager.canonical
        { aliases := [("strasse".toList, "quantity".toList)], frozen := false }
        "STRASSE".toList = "quantity".toList ∧
    asciiLower "straße".toList ≠ caseFold "straße".toList :=
  ⟨@c1_casefold_invariant_lookup { aliases := [], frozen := false }
      { aliases := [("strasse".toList, "quantity".toList)], frozen := false }
      ("straße".toList) ("quantity".toList) ("STRASSE".toList) false
      (by rfl) (by decide),
    by decide⟩

/-- C2 counterexample: the claim says a rename entry whose canonical
case-folds equal to the alias itself and matches no *other* column is
not flagged; the code flags it.  With the single column "QTY" and the
registry entry qty → "Qty", the only column whose case folding equals
that of the canonical "Qty" is the alias's own column "QTY", yet
`to_canonical` with dropConflicts=false raises CollisionError. -/
theorem c2_collision_claim_counterexample :
    ColumnAliasManager.to_canonical
        { aliases := [("qty".toList, "Qty".toList)], frozen := false }
        { columns := ["QTY".toList], attrs := [] } false false true =
      Except.error Err.collisionError ∧
    (∀ col ∈ ["QTY".toList],
      caseFold "Qty".toList = caseFold col → col = "QTY".toList) :=
  ⟨by rfl, by decide⟩

/-- C2 amended: with dropConflicts=false, `to_canonical` raises
CollisionError iff some entry alias → canonical of the candidate
rename map has a canonical whose normalized form matches *any*
existing column label of the table (the alias's own column included)
and alias ≠ canonical as exact strings. -/
theorem c2_amended_collision_iff (m : ColumnAliasManager) (df : DataFrame)
    (ip rem : Bool) :
    m.to_canonical df ip false rem = Except.error Err.collisionError ↔
      ∃ p ∈ rename_map_of m df,
        _normalize p.2 ∈ df.columns.map _normalize ∧ p.1 ≠ p.2 :=
  (to_canonical_collision_iff m df ip rem).trans (collisions_of_ne_nil_iff m df)

/-- C3: on a table with columns ["qty","amt"] and the registry
{qty → quantity, amt → amount}, `to_canonical` yields columns
["quantity","amount"] and stores {"qty": "quantity", "amt": "amount"}
in the metadata bag under the fixed key "alias_map"; `restore_aliases`
on that result yields columns ["qty","amt"] again. -/
theorem c3_rename_restore_round_trip :
    ColumnAliasManager.to_canonical
        { aliases := [("qty".toList, "quantity".toList),
                      ("amt".toList, "amount".toList)], frozen := false }
        { columns := ["qty".toList, "amt".toList], attrs := [] } false false
        true =
      Except.ok
        { columns := ["quantity".toList, "amount".toList],
          attrs := [(_ATTR_KEY,
            [("qty".toList, "quantity".toList),
             ("amt".toList, "amount".toList)])] } ∧
    _ATTR_KEY = "alias_map".toList ∧
    ColumnAliasManager.restore_aliases
        { aliases := [("qty".toList, "quantity".toList),
                      ("amt".toList, "amount".toList)], frozen := false }
        { columns := ["quantity".toList, "amount".toList],
          attrs := [(_ATTR_KEY,
            [("qty".toList, "quantity".toList),
             ("amt".toList, "amount".toList)])] } false true =
      Except.ok
        { columns := ["qty".toList, "amt".toList],
          attrs := [(_ATTR_KEY,
            [("qty".toList, "quantity".toList),
             ("amt".toList, "amount".toList)])] } :=
  ⟨by rfl, by rfl, by rfl⟩

/-- C4 counterexample: constructing with a non-empty initial mapping
and frozen=true does NOT succeed: the frozen flag is set before the
entries are added, so the first `add_alias` raises FrozenError and no
entry is stored. -/
theorem c4_frozen_init_counterexample :
    ColumnAliasManager.init (some [("qty".toList, "quantity".toList)]) true =
      ({ aliases := [], frozen := true }, some Err.frozenError) := by rfl

/-- C4 amended: with frozen=false every entry of the initial mapping
is added through the same validated path as `add_alias`
(`init` agrees with `add_aliases` on an empty unfrozen registry), but
with frozen=true and a non-empty initial mapping construction fails
with FrozenError and yields a frozen registry with no entries; only a
frozen registry with no initial entries can be constructed
(frozen=true with no mapping succeeds). -/
theorem c4_frozen_init_amended (mp : List (Str × Str)) (h : mp ≠ []) :
    ColumnAliasManager.init (some mp) true =
      ({ aliases := [], frozen := true }, some Err.frozenError) ∧
    ColumnAliasManager.init (some mp) false =
      ColumnAliasManager.add_aliases { aliases := [], frozen := false } mp
        false ∧
    ColumnAliasManager.init none true =
      ({ aliases := [], frozen := true }, none) := by
  refine ⟨?_, ?_, rfl⟩
  · simp only [ColumnAliasManager.init]
    rw [if_neg h]
    exact addAliasLoop_frozen rfl h false
  · simp only [ColumnAliasManager.init]
    rw [if_neg h]

/-- Witness for C4's amended claim at the mapping {qty → quantity}. -/
theorem c4_frozen_init_amended_witness :
    ColumnAliasManager.init (some [("qty".toList, "quantity".toList)]) false =
      ColumnAliasManager.add_aliases { aliases := [], frozen := false }
        [("qty".toList, "quantity".toList)] false :=
  (c4_frozen_init_amended [("qty".toList, "quantity".toList)] (by decide)).2.1

/-- Zipping a list with its image under a map pairs each element with
its image. -/
theorem zip_map_self {α β : Type} (f : α → β) (l : List α) :
    l.zip (l.map f) = l.map fun a => (a, f a) := by
  induction l with
  | nil => rfl
  | cons a rest ih => simp [ih]

/-- C5: serializing a (well-formed, hence constructible) registry and
loading it back succeeds and yields a registry whose `canonical`
agrees with the original on every input, in particular on every
previously registered alias. -/
theorem c5_json_round_trip (m : ColumnAliasManager) (hw : Wf m) :
    (from_json (to_json m)).2 = none ∧
    ∀ a : Str, (from_json (to_json m)).1.canonical a = m.canonical a := by
  have key : from_json (to_json m) =
      ({ aliases := m.aliases, frozen := false }, none) := by
    show ColumnAliasManager.init (some m.aliases) false = _
    simp only [ColumnAliasManager.init]
    by_cases hmp : m.aliases = []
    · simp [hmp]
    · rw [if_neg hmp]
      have hrec := addAliasLoop_disjoint m.aliases
        { aliases := [], frozen := false } rfl hw.1 (by simpa using hw.2)
      simpa [ColumnAliasManager.add_aliases] using hrec
  rw [key]
  exact ⟨rfl, fun a => rfl⟩

/-- Witness for C5 at the registry {qty → quantity} and the alias
"QTY". -/
theorem c5_json_round_trip_witness :
    (from_json (to_json
        { aliases := [("qty".toList, "quantity".toList)],
          frozen := false })).2 = none ∧
    (from_json (to_json
        { aliases := [("qty".toList, "quantity".toList)],
          frozen := false })).1.canonical "QTY".toList =
      ColumnAliasManager.canonical
        { aliases := [("qty".toList, "quantity".toList)], frozen := false }
        "QTY".toList := by
  have h := c5_json_round_trip
    { aliases := [("qty".toList, "quantity".toList)], frozen := false }
    ⟨by decide, by decide⟩
  exact ⟨h.1, h.2 ("QTY".toList)⟩

/-- C6 counterexample: on a frozen registry, `add_aliases` with an
empty mapping iterates zero times and succeeds with no FrozenError —
so "every mutating operation fails with FrozenError for every
argument" does not hold as stated. -/
theorem c6_frozen_counterexample :
    ColumnAliasManager.add_aliases { aliases := [], frozen := true } [] false =
      ({ aliases := [], frozen := true }, none) := by rfl

/-- C6 amended: `freeze` is idempotent, total and after it `add_alias`,
`add_aliases` on a non-empty mapping, `add_alias_groups` with at least
one alias to add, `remove_alias` and `clear` all fail with FrozenError
leaving the alias map unchanged; the batch operations with zero
entries to add are vacuous successes, also leaving the state
unchanged. -/
theorem c6_freeze_amended (m : ColumnAliasManager) (a c : Str) (ow : Bool)
    (l : List (Str × Str)) (hl : l ≠ []) (g : List (Str × List Str)) :
    m.freeze.freeze = m.freeze ∧
    m.freeze.frozen = true ∧
    m.freeze.add_alias a c ow = Except.error Err.frozenError ∧
    m.freeze.add_aliases l ow = (m.freeze, some Err.frozenError) ∧
    m.freeze.add_aliases [] ow = (m.freeze, none) ∧
    (m.freeze.add_alias_groups g ow).1 = m.freeze ∧
    (groupPairs g ≠ [] →
      m.freeze.add_alias_groups g ow = (m.freeze, some Err.frozenError)) ∧
    m.freeze.remove_alias a = Except.error Err.frozenError ∧
    m.freeze.clear = Except.error Err.frozenError := by
  refine ⟨rfl, rfl, add_alias_frozen rfl, addAliasLoop_frozen rfl hl ow, rfl,
    ?_, fun hg => addAliasLoop_frozen rfl hg ow, remove_alias_frozen rfl a,
    clear_frozen rfl⟩
  by_cases hg : groupPairs g = []
  · show (addAliasLoop m.freeze (groupPairs g) ow).1 = m.freeze
    rw [hg]
    rfl
  · show (addAliasLoop m.freeze (groupPairs g) ow).1 = m.freeze
    rw [addAliasLoop_frozen rfl hg ow]

/-- Witness for C6's amended claim: a frozen registry rejects a
non-empty `add_aliases` with FrozenError and is left unchanged. -/
theorem c6_freeze_amended_witness :
    ColumnAliasManager.add_aliases
        (ColumnAliasManager.freeze { aliases := [], frozen := false })
        [("a".toList, "b".toList)] false =
      (ColumnAliasManager.freeze { aliases := [], frozen := false },
        some Err.frozenError) :=
  (c6_freeze_amended { aliases := [], frozen := false } "a".toList "b".toList
      false [("a".toList, "b".toList)] (by decide) []).2.2.2.1

/-- C7: on an unfrozen registry, `add_alias` without overwrite raises
ConflictError exactly when the normalized alias is already mapped to a
different canonical name; and the concrete scenario: after
qty → quantity, re-adding qty → count fails with ConflictError (the
mapping of qty unchanged since the error precedes any write), while
the same call with overwrite=true succeeds, after which
canonical("QTY") = "count". -/
theorem c7_conflict_behaviour (m : ColumnAliasManager) (a c : Str)
    (hf : m.frozen = false) :
    (m.add_alias a c false = Except.error Err.conflictError ↔
      (dictGet m.aliases (_normalize a)).isSome = true ∧
        dictGet m.aliases (_normalize a) ≠ some c) ∧
    ColumnAliasManager.add_alias { aliases := [], frozen := false }
        "qty".toList "quantity".toList false =
      Except.ok
        { aliases := [("qty".toList, "quantity".toList)], frozen := false } ∧
    ColumnAliasManager.add_alias
        { aliases := [("qty".toList, "quantity".toList)], frozen := false }
        "qty".toList "count".toList false =
      Except.error Err.conflictError ∧
    ColumnAliasManager.add_alias
        { aliases := [("qty".toList, "quantity".toList)], frozen := false }
        "qty".toList "count".toList true =
      Except.ok
        { aliases := [("qty".toList, "count".toList)], frozen := false } ∧
    ColumnAliasManager.canonical
        { aliases := [("qty".toList, "count".toList)], frozen := false }
        "QTY".toList = "count".toList :=
  ⟨add_alias_conflict_iff m a c hf, by rfl, by rfl, by rfl, by rfl⟩

/-- Witness for C7 at the registry {qty → quantity}. -/
theorem c7_conflict_behaviour_witness :
    ColumnAliasManager.add_alias
        { aliases := [("qty".toList, "quantity".toList)], frozen := false }
        "qty".toList "count".toList false = Except.error Err.conflictError :=
  ((c7_conflict_behaviour
        { aliases := [("qty".toList, "quantity".toList)], frozen := false }
        "qty".toList "count".toList rfl).1).mpr ⟨by rfl, by decide⟩

/-- C8: `resolve` returns an absent result exactly on absent input;
otherwise it returns a sequence of the same length in which,
position by position, every string label is replaced by its
`canonical` and every non-string label is passed through unchanged. -/
theorem c8_resolve_shape (m : ColumnAliasManager)
    (columns : Option (List Label)) :
    (m.resolve columns = none ↔ columns = none) ∧
    ∀ l, columns = some l →
      ∃ r, m.resolve columns = some r ∧ r.length = l.length ∧
        ∀ p ∈ l.zip r,
          (∀ s, p.1 = Label.str s → p.2 = Label.str (m.canonical s)) ∧
          (∀ n, p.1 = Label.other n → p.2 = Label.other n) := by
  constructor
  · cases columns with
    | none => simp [ColumnAliasManager.resolve]
    | some l => simp [ColumnAliasManager.resolve]
  · intro l hc
    subst hc
    refine ⟨_, rfl, by simp, ?_⟩
    intro p hp
    rw [zip_map_self] at hp
    obtain ⟨a, ha, rfl⟩ := List.mem_map.mp hp
    cases a with
    | str s =>
        refine ⟨fun s' hs => ?_, fun n hn => ?_⟩
        · cases hs
          rfl
        · cases hn
    | other k =>
        refine ⟨fun s' hs => ?_, fun n hn => ?_⟩
        · cases hs
        · cases hn
          rfl

/-- Witness for C8 at the registry {qty → quantity} and the labels
["Qty", 42]. -/
theorem c8_resolve_shape_witness :
    ∃ r, ColumnAliasManager.resolve
        { aliases := [("qty".toList, "quantity".toList)], frozen := false }
        (some [Label.str "Qty".toList, Label.other 42]) = some r ∧
      r.length = [Label.str "Qty".toList, Label.other 42].length ∧
      ∀ p ∈ [Label.str "Qty".toList, Label.other 42].zip r,
        (∀ s, p.1 = Label.str s →
          p.2 = Label.str
            (ColumnAliasManager.canonical
              { aliases := [("qty".toList, "quantity".toList)],
                frozen := false } s)) ∧
        (∀ n, p.1 = Label.other n → p.2 = Label.other n) :=
  (c8_resolve_shape
      { aliases := [("qty".toList, "quantity".toList)], frozen := false }
      (some [Label.str "Qty".toList, Label.other 42])).2
    [Label.str "Qty".toList, Label.other 42] rfl

/-- C9: all mutating entry points preserve the invariant that every
alias-map key is a fixed point of case folding (hence the case-folded
form of the alias that produced it) with unique keys, and `add_alias`
stores the supplied canonical name unmodified (not case-folded) as
the value. -/
theorem c9_wf_preserved (m : ColumnAliasManager) (hw : Wf m) :
    (∀ mp fz, Wf (ColumnAliasManager.init mp fz).1) ∧
    (∀ a c m' ow, m.add_alias a c ow = Except.ok m' →
      Wf m' ∧ dictGet m'.aliases (_normalize a) = some c) ∧
    (∀ l ow, Wf (m.add_aliases l ow).1) ∧
    (∀ g ow, Wf (m.add_alias_groups g ow).1) ∧
    (∀ a m', m.remove_alias a = Except.ok m' → Wf m') ∧
    (∀ m', m.clear = Except.ok m' → Wf m') ∧
    (∀ d, Wf (from_json d).1) :=
  ⟨wf_init, fun _ _ _ _ h => wf_add_alias hw h,
    fun l ow => wf_addAliasLoop hw l ow,
    fun g ow => wf_addAliasLoop hw (groupPairs g) ow,
    fun _ _ h => wf_remove_alias hw h, fun _ h => wf_clear h, wf_from_json⟩

/-- Witness for C9: adding "Qty" → "Quantity" to the empty registry
keeps the invariant (the stored key is the case-folded "qty"). -/
theorem c9_wf_preserved_witness :
    ColumnAliasManager.Wf
      (ColumnAliasManager.add_aliases { aliases := [], frozen := false }
        [("Qty".toList, "Quantity".toList)] false).1 :=
  (c9_wf_preserved { aliases := [], frozen := false } ⟨by decide, by decide⟩).2.2.1
    [("Qty".toList, "Quantity".toList)] false

/-- C10: `to_canonical` with remember=false leaves the metadata bag of
the result — in particular the entry under the fixed key "alias_map",
stale record included — exactly as on the input table; only the
column labels change, each through the applied rename map. -/
theorem c10_no_remember_frame {m : ColumnAliasManager} {df : DataFrame}
    {ip dc : Bool} {t : DataFrame}
    (h : m.to_canonical df ip dc false = Except.ok t) :
    t.attrs = df.attrs ∧
    dictGet t.attrs _ATTR_KEY = dictGet df.attrs _ATTR_KEY ∧
    t.columns = df.columns.map
      (fun col => (dictGet (applied_rename_map m df) col).getD col) := by
  have ht := to_canonical_ok h
  simp only [Bool.false_eq_true, if_false] at ht
  subst ht
  exact ⟨rfl, rfl, rfl⟩

/-- Witness for C10: a stale "alias_map" record {x → y} survives a
remember=false rename of qty → quantity. -/
theorem c10_no_remember_frame_witness :
    (DataFrame.mk ["quantity".toList]
        [(_ATTR_KEY, [("x".toList, "y".toList)])]).attrs =
      (DataFrame.mk ["qty".toList]
        [(_ATTR_KEY, [("x".toList, "y".toList)])]).attrs ∧
    dictGet (DataFrame.mk ["quantity".toList]
        [(_ATTR_KEY, [("x".toList, "y".toList)])]).attrs _ATTR_KEY =
      dictGet (DataFrame.mk ["qty".toList]
        [(_ATTR_KEY, [("x".toList, "y".toList)])]).attrs _ATTR_KEY ∧
    (DataFrame.mk ["quantity".toList]
        [(_ATTR_KEY, [("x".toList, "y".toList)])]).columns =
      (DataFrame.mk ["qty".toList]
          [(_ATTR_KEY, [("x".toList, "y".toList)])]).columns.map
        (fun col =>
          (dictGet
            (applied_rename_map
              { aliases := [("qty".toList, "quantity".toList)],
                frozen := false }
              (DataFrame.mk ["qty".toList]
                [(_ATTR_KEY, [("x".toList, "y".toList)])])) col).getD col) :=
  @c10_no_remember_frame
    { aliases := [("qty".toList, "quantity".toList)], frozen := false }
    (DataFrame.mk ["qty".toList] [(_ATTR_KEY, [("x".toList, "y".toList)])])
    false false
    (DataFrame.mk ["quantity".toList]
      [(_ATTR_KEY, [("x".toList, "y".toList)])])
    (by rfl)
